import Mathlib

/-!
Shallow embedding of the budget suggestion engine of the ShoppingAssistance
repository (`src/lib/budget.ts`) and of the request validation of the budget
API route (`src/app/api/budget/route.ts`), together with proofs settling the
claims about them.

JavaScript numbers are modelled by `JNum`: `NaN`, the two infinities, and
finite values represented exactly as rationals.  The engine performs only
comparisons, additions and subtractions on prices and a single final rounding,
so finite JavaScript arithmetic is modelled exactly by rational arithmetic;
the special values are carried because the source checks `isNaN` and `> 0`
but never checks finiteness.  JavaScript's `Array.prototype.sort` (stable
since ES2019) with a comparator `c` is modelled by the stable
`List.insertionSort` over the relation `fun a b => c a b ≤ 0`: a stable sort
by a total preorder has a unique output, so any stable sort models it.
-/

/-- Model of a JavaScript number: `NaN`, `Infinity`, `-Infinity`, or a finite
value (represented exactly as a rational). -/
inductive JNum where
  | nan : JNum
  | inf : JNum
  | ninf : JNum
  | fin : ℚ → JNum
deriving DecidableEq, Repr

/-- The `isNaN` predicate of JavaScript. -/
def JNum.isNaN : JNum → Bool
  | .nan => true
  | _ => false

/-- Whether a JavaScript number is finite (`Number.isFinite`). -/
def JNum.isFinite : JNum → Bool
  | .fin _ => true
  | _ => false

/-- JavaScript's `<=` comparison: any comparison involving `NaN` is false. -/
def JNum.leb : JNum → JNum → Bool
  | .nan, _ => false
  | _, .nan => false
  | .ninf, _ => true
  | .inf, .inf => true
  | .inf, _ => false
  | .fin _, .inf => true
  | .fin _, .ninf => false
  | .fin a, .fin b => decide (a ≤ b)

/-- JavaScript's `>` comparison: any comparison involving `NaN` is false. -/
def JNum.gtb : JNum → JNum → Bool
  | .nan, _ => false
  | _, .nan => false
  | .inf, .inf => false
  | .inf, _ => true
  | .ninf, _ => false
  | .fin _, .inf => false
  | .fin _, .ninf => true
  | .fin a, .fin b => decide (b < a)

/-- JavaScript subtraction on numbers (`Infinity - Infinity = NaN`, etc.). -/
def JNum.sub : JNum → JNum → JNum
  | .nan, _ => .nan
  | _, .nan => .nan
  | .inf, .inf => .nan
  | .inf, _ => .inf
  | .ninf, .ninf => .nan
  | .ninf, _ => .ninf
  | .fin _, .inf => .ninf
  | .fin _, .ninf => .inf
  | .fin a, .fin b => .fin (a - b)

/-- The finite value of a `JNum` (junk value `0` on the special values). -/
def JNum.toQ : JNum → ℚ
  | .fin q => q
  | _ => 0

/-- JavaScript's `Math.round` on a finite value: round half up. -/
def jsRound (q : ℚ) : ℤ := ⌊q + 1 / 2⌋

/-- Rounding to two decimal places, `Math.round(q * 100) / 100`, as the
engine applies to `totalCost` and `remaining`. -/
def round2 (q : ℚ) : ℚ := (jsRound (q * 100) : ℚ) / 100

/-- Lift of `Math.round(x * 100) / 100` to a JavaScript number: the special
values are fixed points. -/
def JNum.round2J : JNum → JNum
  | .fin q => .fin (round2 q)
  | x => x

/-- The fields of a wishlist item that the budget engine reads
(`WishlistItem` in `src/types/index.ts`); `priceInBaseCurrency` is nullable,
`none` modelling `null`. -/
structure WishlistItem where
  id : String
  priority : ℤ
  isPurchased : Bool
  currentPrice : JNum
  currency : String
  priceInBaseCurrency : Option JNum
deriving DecidableEq, Repr

/-- A budget suggestion (`BudgetSuggestion` in `src/types/index.ts`). -/
structure BudgetSuggestion where
  strategy : String
  items : List WishlistItem
  totalCost : JNum
  priorityScore : ℤ
  remaining : JNum
deriving DecidableEq, Repr

/-- The validity test the source applies to `priceInBaseCurrency`:
not `null`, a number, not `NaN`, and `> 0`.  Finiteness is not tested. -/
def pibcValid (item : WishlistItem) : Bool :=
  match item.priceInBaseCurrency with
  | some p => !p.isNaN && p.gtb (.fin 0)
  | none => false

/-- Translation of `getEffectivePrice` from `src/lib/budget.ts`: use `priceInBaseCurrency`
when valid, otherwise fall back to `currentPrice` when the item's currency
matches the base currency and `currentPrice > 0`, otherwise `null`. -/
def getEffectivePrice (item : WishlistItem) (baseCurrency : String) : Option JNum :=
  if pibcValid item then item.priceInBaseCurrency
  else if item.currency == baseCurrency && item.currentPrice.gtb (.fin 0) then
    some item.currentPrice
  else none

/-- The spread `{ ...item, priceInBaseCurrency: effectivePrice }` used by
`getAvailableItems`. -/
def setPrice (item : WishlistItem) (p : JNum) : WishlistItem :=
  { item with priceInBaseCurrency := some p }

/-- The price read `item.priceInBaseCurrency!` used by the greedy strategies;
a `null` value behaves as `0` in JavaScript's `<=` and `-=`, which `getD`
with default `0` models. -/
def priceOf (item : WishlistItem) : JNum :=
  item.priceInBaseCurrency.getD (.fin 0)

/-- Translation of `getAvailableItems` from `src/lib/budget.ts`: map each item to a copy
carrying its effective price (dropping items whose price does not resolve),
then drop purchased items and items whose price exceeds the budget. -/
def getAvailableItems (items : List WishlistItem) (budget : ℚ)
    (baseCurrency : String) : List WishlistItem :=
  (items.filterMap (fun item => (getEffectivePrice item baseCurrency).map (setPrice item))).filter
    (fun item => !item.isPurchased && !(priceOf item).gtb (.fin budget))

/-- The greedy walk shared by the three strategies: walk the sorted list,
selecting each item whose price is `<=` the remaining budget and subtracting
its price from the remaining budget.  Returns the selection and the final
remaining budget. -/
def greedyGo : List WishlistItem → JNum → List WishlistItem × JNum
  | [], remaining => ([], remaining)
  | item :: rest, remaining =>
    if (priceOf item).leb remaining then
      let res := greedyGo rest (remaining.sub (priceOf item))
      (item :: res.1, res.2)
    else greedyGo rest remaining

/-- Construction of the suggestion record shared by the three strategies:
`totalCost = Math.round((budget - remaining) * 100) / 100`,
`priorityScore = selected.reduce((sum, item) => sum + item.priority, 0)`,
`remaining = Math.round(remaining * 100) / 100`. -/
def buildSuggestion (strategy : String) (sorted : List WishlistItem)
    (budget : ℚ) : BudgetSuggestion :=
  let res := greedyGo sorted (.fin budget)
  { strategy := strategy
    items := res.1
    totalCost := ((JNum.fin budget).sub res.2).round2J
    priorityScore := res.1.foldl (fun sum item => sum + item.priority) 0
    remaining := res.2.round2J }

/-- The ordering relation of the comparator `(a, b) => b.priority - a.priority`:
`a` comes no later than `b` when the comparator is `<= 0`. -/
def prioRel (a b : WishlistItem) : Prop := b.priority ≤ a.priority

instance : DecidableRel prioRel :=
  fun a b => inferInstanceAs (Decidable (b.priority ≤ a.priority))

instance : IsTotal WishlistItem prioRel := ⟨fun a b => le_total b.priority a.priority⟩

instance : IsTrans WishlistItem prioRel := ⟨fun _ _ _ h1 h2 => le_trans h2 h1⟩

/-- The stable sort `[...items].sort((a, b) => b.priority - a.priority)`:
priority descending, ties keep input order.  A stable sort by a total
preorder has a unique output, so the stable `insertionSort` models
JavaScript's stable `Array.prototype.sort` exactly. -/
def sortByPriority (items : List WishlistItem) : List WishlistItem :=
  items.insertionSort prioRel

/-- The ordering relation of the comparator
`(a, b) => a.priceInBaseCurrency! - b.priceInBaseCurrency!`. -/
def priceRel (a b : WishlistItem) : Prop := (priceOf a).leb (priceOf b) = true

instance : DecidableRel priceRel :=
  fun a b => inferInstanceAs (Decidable ((priceOf a).leb (priceOf b) = true))

/-- The stable sort of `greedyByCheapest`: price ascending, ties keep input
order. -/
def sortByPrice (items : List WishlistItem) : List WishlistItem :=
  items.insertionSort priceRel

/-- The value ratio `priority / priceInBaseCurrency!` of `greedyByValue`. -/
def ratioOf (item : WishlistItem) : ℚ :=
  (item.priority : ℚ) / (priceOf item).toQ

/-- The ordering relation of the comparator of `greedyByValue`. -/
def valueRel (a b : WishlistItem) : Prop := ratioOf b ≤ ratioOf a

instance : DecidableRel valueRel :=
  fun a b => inferInstanceAs (Decidable (ratioOf b ≤ ratioOf a))

/-- The stable sort of `greedyByValue`: value ratio descending, ties keep
input order. -/
def sortByValue (items : List WishlistItem) : List WishlistItem :=
  items.insertionSort valueRel

/-- Translation of `greedyByPriority` from `src/lib/budget.ts` (strategy `high-priority`). -/
def greedyByPriority (items : List WishlistItem) (budget : ℚ) : BudgetSuggestion :=
  buildSuggestion "high-priority" (sortByPriority items) budget

/-- Translation of `greedyByCheapest` from `src/lib/budget.ts` (strategy `most-items`). -/
def greedyByCheapest (items : List WishlistItem) (budget : ℚ) : BudgetSuggestion :=
  buildSuggestion "most-items" (sortByPrice items) budget

/-- Translation of `greedyByValue` from `src/lib/budget.ts` (strategy `best-value`). -/
def greedyByValue (items : List WishlistItem) (budget : ℚ) : BudgetSuggestion :=
  buildSuggestion "best-value" (sortByValue items) budget

/-- The canonically sorted id list `a.items.map(item => item.id).sort()`
used by `areSuggestionsEqual`. -/
def sortedIds (s : BudgetSuggestion) : List String :=
  (s.items.map (fun item => item.id)).insertionSort (fun a b => a ≤ b)

/-- Translation of `areSuggestionsEqual` from `src/lib/budget.ts`: equal lengths and equal
sorted id arrays (pointwise `every` over arrays of equal length is list
equality). -/
def areSuggestionsEqual (a b : BudgetSuggestion) : Bool :=
  a.items.length == b.items.length && sortedIds a == sortedIds b

/-- The accumulator loop of `deduplicateSuggestions`: push a suggestion onto
`unique` unless some already-kept suggestion is equal to it. -/
def dedupGo (unique : List BudgetSuggestion) :
    List BudgetSuggestion → List BudgetSuggestion
  | [] => unique
  | s :: rest =>
    if unique.any (fun existing => areSuggestionsEqual existing s) then
      dedupGo unique rest
    else dedupGo (unique ++ [s]) rest

/-- Translation of `deduplicateSuggestions` from `src/lib/budget.ts`. -/
def deduplicateSuggestions (suggestions : List BudgetSuggestion) :
    List BudgetSuggestion :=
  dedupGo [] suggestions

/-- Translation of `suggestPurchases` from `src/lib/budget.ts`: filter to available items,
return `[]` when none remain, otherwise run the three strategies in the
fixed order, drop empty selections, and deduplicate. -/
def suggestPurchases (items : List WishlistItem) (budget : ℚ)
    (baseCurrency : String) : List BudgetSuggestion :=
  let available := getAvailableItems items budget baseCurrency
  if available.length == 0 then []
  else
    deduplicateSuggestions
      (([greedyByPriority available budget, greedyByCheapest available budget,
          greedyByValue available budget]).filter
        (fun s => decide (0 < s.items.length)))

/-- A value of the `budget` field of the request body: a JavaScript number,
or a present value of any other type (string, boolean, object, ...). -/
inductive BodyVal where
  | num : JNum → BodyVal
  | nonNum : BodyVal
deriving DecidableEq, Repr

/-- The JSON body of a `POST /api/budget` request: the `budget` field
(`none` modelling absent or `null`) and any `currency` field the client may
have included (the handler never reads one; the request interface has no
currency field). -/
structure BudgetRequestBody where
  budget : Option BodyVal
  currency : Option String
deriving DecidableEq, Repr

/-- Outcome of the validation phase of the `POST` handler in
`src/app/api/budget/route.ts`: a 400 rejection, or invocation of the engine
with the validated budget and the base currency read from stored settings. -/
inductive PostOutcome where
  | rejected : String → PostOutcome
  | invoked : JNum → String → PostOutcome
deriving DecidableEq, Repr

/-- The request-validation logic of the `POST` handler: reject when `budget`
is absent or `null`, when it is not of type number, or when `budget <= 0`;
otherwise invoke the engine with the budget and the settings' base currency.
No field of the request other than `budget` is consulted. -/
def POST (body : BudgetRequestBody) (settingsBaseCurrency : String) : PostOutcome :=
  match body.budget with
  | none => .rejected "Budget amount is required"
  | some .nonNum => .rejected "Budget must be a positive number"
  | some (.num b) =>
    if b.leb (.fin 0) then .rejected "Budget must be a positive number"
    else .invoked b settingsBaseCurrency

/-- Modelled from the spec: the price-resolution rule as the spec words it,
requiring `priceInBaseCurrency` to be a valid positive *finite* number
(the source's `getEffectivePrice` omits the finiteness test). -/
def specEffectivePrice (item : WishlistItem) (baseCurrency : String) : Option JNum :=
  if (match item.priceInBaseCurrency with
      | some p => !p.isNaN && p.isFinite && p.gtb (.fin 0)
      | none => false) then
    item.priceInBaseCurrency
  else if item.currency == baseCurrency && item.currentPrice.gtb (.fin 0) then
    some item.currentPrice
  else none

@[simp] theorem setPrice_id (it : WishlistItem) (p : JNum) : (setPrice it p).id = it.id := rfl

@[simp] theorem setPrice_priority (it : WishlistItem) (p : JNum) : (setPrice it p).priority = it.priority := rfl

@[simp] theorem setPrice_isPurchased (it : WishlistItem) (p : JNum) : (setPrice it p).isPurchased = it.isPurchased := rfl

@[simp] theorem setPrice_currency (it : WishlistItem) (p : JNum) : (setPrice it p).currency = it.currency := rfl

@[simp] theorem setPrice_currentPrice (it : WishlistItem) (p : JNum) : (setPrice it p).currentPrice = it.currentPrice := rfl

@[simp] theorem setPrice_pibc (it : WishlistItem) (p : JNum) : (setPrice it p).priceInBaseCurrency = some p := rfl

@[simp] theorem priceOf_setPrice (it : WishlistItem) (p : JNum) : priceOf (setPrice it p) = p := rfl

theorem JNum.gtb_fin_zero (p : JNum) :
    p.gtb (.fin 0) = true ↔ p = .inf ∨ ∃ q : ℚ, p = .fin q ∧ 0 < q := by
  cases p <;> simp [JNum.gtb]

theorem JNum.gtb_inf_fin (b : ℚ) : JNum.gtb .inf (.fin b) = true := rfl

theorem JNum.gtb_fin_fin (a b : ℚ) : JNum.gtb (.fin a) (.fin b) = decide (b < a) := rfl

theorem JNum.leb_fin_fin (a b : ℚ) : JNum.leb (.fin a) (.fin b) = decide (a ≤ b) := rfl

theorem JNum.sub_fin_fin (a b : ℚ) : JNum.sub (.fin a) (.fin b) = .fin (a - b) := rfl

theorem getEffectivePrice_pos {item : WishlistItem} {c : String} {p : JNum}
    (h : getEffectivePrice item c = some p) : p.gtb (.fin 0) = true := by
  unfold getEffectivePrice at h
  split at h
  · next hv =>
    unfold pibcValid at hv
    cases hpibc : item.priceInBaseCurrency with
    | none => rw [hpibc] at hv; simp at hv
    | some q =>
      rw [hpibc] at hv h
      simp only [Bool.and_eq_true] at hv
      cases h
      exact hv.2
  · split at h
    · next hc =>
      cases h
      exact (Bool.and_eq_true _ _ |>.mp hc).2
    · cases h

theorem mem_getAvailableItems {j : WishlistItem} {items : List WishlistItem}
    {b : ℚ} {c : String} :
    j ∈ getAvailableItems items b c ↔
      ∃ orig ∈ items, ∃ p, getEffectivePrice orig c = some p ∧ j = setPrice orig p ∧
        orig.isPurchased = false ∧ p.gtb (.fin b) = false := by
  unfold getAvailableItems
  simp only [List.mem_filter, List.mem_filterMap, Option.map_eq_some']
  constructor
  · rintro ⟨⟨orig, ho, p, hp, rfl⟩, hcond⟩
    simp only [Bool.and_eq_true, Bool.not_eq_true', setPrice_isPurchased,
      priceOf_setPrice] at hcond
    exact ⟨orig, ho, p, hp, rfl, hcond.1, hcond.2⟩
  · rintro ⟨orig, ho, p, hp, rfl, hpur, hbud⟩
    refine ⟨⟨orig, ho, p, hp, rfl⟩, ?_⟩
    simp [hpur, hbud]

theorem avail_price_fin {j : WishlistItem} {items : List WishlistItem}
    {b : ℚ} {c : String} (h : j ∈ getAvailableItems items b c) :
    ∃ q : ℚ, j.priceInBaseCurrency = some (.fin q) ∧ 0 < q ∧ q ≤ b := by
  obtain ⟨orig, -, p, hp, rfl, -, hbud⟩ := mem_getAvailableItems.mp h
  have hpos := getEffectivePrice_pos hp
  rcases (JNum.gtb_fin_zero p).mp hpos with hinf | ⟨q, rfl, hq⟩
  · rw [hinf] at hbud
    exact absurd (JNum.gtb_inf_fin b) (by simp [hbud])
  · refine ⟨q, rfl, hq, ?_⟩
    rw [JNum.gtb_fin_fin] at hbud
    exact le_of_not_lt (by simpa using hbud)

theorem avail_priceOf_fin {j : WishlistItem} {items : List WishlistItem}
    {b : ℚ} {c : String} (h : j ∈ getAvailableItems items b c) :
    (priceOf j).isFinite = true := by
  obtain ⟨q, hq, -⟩ := avail_price_fin h
  simp [priceOf, hq, JNum.isFinite]

/-- Sum of the (finite) effective prices of a selection. -/
def sumPrices (l : List WishlistItem) : ℚ :=
  (l.map (fun it => (priceOf it).toQ)).sum

/-- Sum of the priorities of a selection. -/
def sumPrio (l : List WishlistItem) : ℤ :=
  (l.map (fun it => it.priority)).sum

theorem foldl_priority (l : List WishlistItem) (a : ℤ) :
    l.foldl (fun sum item => sum + item.priority) a = a + sumPrio l := by
  induction l generalizing a with
  | nil => simp [sumPrio]
  | cons it rest ih =>
    simp only [List.foldl_cons, ih, sumPrio, List.map_cons, List.sum_cons]
    exact add_assoc a it.priority _

theorem greedyGo_sublist (l : List WishlistItem) (r : JNum) :
    List.Sublist (greedyGo l r).1 l := by
  induction l generalizing r with
  | nil => simp [greedyGo]
  | cons it rest ih =>
    unfold greedyGo
    split
    · exact List.Sublist.cons₂ it (ih _)
    · exact List.Sublist.cons it (ih _)

theorem greedyGo_remaining (l : List WishlistItem)
    (H : ∀ it ∈ l, (priceOf it).isFinite = true) (rq : ℚ) :
    (greedyGo l (.fin rq)).2 = .fin (rq - sumPrices (greedyGo l (.fin rq)).1) := by
  induction l generalizing rq with
  | nil => simp [greedyGo, sumPrices]
  | cons it rest ih =>
    have hfin : (priceOf it).isFinite = true := H it (List.mem_cons_self it rest)
    obtain ⟨q, hq⟩ : ∃ q : ℚ, priceOf it = .fin q := by
      cases hp : priceOf it <;> simp [hp, JNum.isFinite] at hfin ⊢
    have Hrest : ∀ x ∈ rest, (priceOf x).isFinite = true :=
      fun x hx => H x (List.mem_cons_of_mem it hx)
    unfold greedyGo
    rw [hq]
    by_cases hle : (JNum.fin q).leb (.fin rq) = true
    · simp only [hle, if_pos, JNum.sub_fin_fin]
      rw [ih Hrest]
      simp only [sumPrices, List.map_cons, List.sum_cons, hq, JNum.toQ]
      ring_nf
    · simp only [hle]
      simp only [Bool.false_eq_true, if_false]
      exact ih Hrest rq

theorem greedyGo_cons (it : WishlistItem) (rest : List WishlistItem) (r : JNum) :
    greedyGo (it :: rest) r =
      if (priceOf it).leb r then
        ((it :: (greedyGo rest (r.sub (priceOf it))).1),
          (greedyGo rest (r.sub (priceOf it))).2)
      else greedyGo rest r := rfl

theorem buildSuggestion_strategy (name : String) (sorted : List WishlistItem)
    (b : ℚ) : (buildSuggestion name sorted b).strategy = name := rfl

theorem buildSuggestion_items (name : String) (sorted : List WishlistItem)
    (b : ℚ) : (buildSuggestion name sorted b).items = (greedyGo sorted (.fin b)).1 := rfl

theorem buildSuggestion_totalCost (name : String) (sorted : List WishlistItem)
    (b : ℚ) (H : ∀ it ∈ sorted, (priceOf it).isFinite = true) :
    (buildSuggestion name sorted b).totalCost =
      .fin (round2 (sumPrices (buildSuggestion name sorted b).items)) := by
  have hrem := greedyGo_remaining sorted H b
  show ((JNum.fin b).sub (greedyGo sorted (.fin b)).2).round2J = _
  rw [hrem, JNum.sub_fin_fin]
  show JNum.fin (round2 (b - (b - sumPrices (greedyGo sorted (.fin b)).1))) = _
  rw [buildSuggestion_items]
  congr 2
  exact sub_sub_cancel b _

theorem buildSuggestion_remaining (name : String) (sorted : List WishlistItem)
    (b : ℚ) (H : ∀ it ∈ sorted, (priceOf it).isFinite = true) :
    (buildSuggestion name sorted b).remaining =
      .fin (round2 (b - sumPrices (buildSuggestion name sorted b).items)) := by
  have hrem := greedyGo_remaining sorted H b
  show (greedyGo sorted (.fin b)).2.round2J = _
  rw [hrem, buildSuggestion_items]
  rfl

theorem buildSuggestion_priorityScore (name : String) (sorted : List WishlistItem)
    (b : ℚ) :
    (buildSuggestion name sorted b).priorityScore =
      sumPrio (buildSuggestion name sorted b).items := by
  show (greedyGo sorted (.fin b)).1.foldl (fun sum item => sum + item.priority) 0 = _
  rw [foldl_priority, buildSuggestion_items]
  exact zero_add _

theorem abs_round2_sub (q : ℚ) : |round2 q - q| ≤ 1 / 200 := by
  have h1 : (jsRound (q * 100) : ℚ) ≤ q * 100 + 1 / 2 := by
    unfold jsRound
    exact_mod_cast Int.floor_le (q * 100 + 1 / 2)
  have h2 : q * 100 + 1 / 2 < (jsRound (q * 100) : ℚ) + 1 := by
    unfold jsRound
    exact_mod_cast Int.lt_floor_add_one (q * 100 + 1 / 2)
  rw [abs_le]
  unfold round2
  constructor <;> [linarith; linarith]

theorem areSuggestionsEqual_refl (a : BudgetSuggestion) :
    areSuggestionsEqual a a = true := by
  simp [areSuggestionsEqual]

theorem dedupGo_append (acc : List BudgetSuggestion) (l : List BudgetSuggestion) :
    ∃ t, dedupGo acc l = acc ++ t ∧ List.Sublist t l := by
  induction l generalizing acc with
  | nil => exact ⟨[], by simp [dedupGo]⟩
  | cons s rest ih =>
    unfold dedupGo
    split
    · obtain ⟨t, ht, hsub⟩ := ih acc
      exact ⟨t, ht, List.Sublist.cons s hsub⟩
    · obtain ⟨t, ht, hsub⟩ := ih (acc ++ [s])
      refine ⟨s :: t, ?_, List.Sublist.cons₂ s hsub⟩
      rw [ht, List.append_assoc]
      rfl

theorem deduplicateSuggestions_sublist (l : List BudgetSuggestion) :
    List.Sublist (deduplicateSuggestions l) l := by
  obtain ⟨t, ht, hsub⟩ := dedupGo_append [] l
  unfold deduplicateSuggestions
  rw [ht]
  simpa using hsub

theorem deduplicateSuggestions_cons (s : BudgetSuggestion)
    (l : List BudgetSuggestion) :
    ∃ t, deduplicateSuggestions (s :: l) = s :: t ∧ List.Sublist t l := by
  unfold deduplicateSuggestions dedupGo
  simp only [List.any_nil, Bool.false_eq_true, if_false]
  obtain ⟨t, ht, hsub⟩ := dedupGo_append [s] l
  exact ⟨t, by simpa using ht, hsub⟩

theorem dedupGo_exists (acc : List BudgetSuggestion) (l : List BudgetSuggestion)
    (s : BudgetSuggestion) (hs : s ∈ l) :
    ∃ t ∈ dedupGo acc l, areSuggestionsEqual t s = true := by
  induction l generalizing acc with
  | nil => cases hs
  | cons x rest ih =>
    unfold dedupGo
    rcases List.mem_cons.mp hs with rfl | hs
    · split
      · next hdup =>
        obtain ⟨e, he, heq⟩ := List.any_eq_true.mp hdup
        obtain ⟨t, ht, -⟩ := dedupGo_append acc rest
        exact ⟨e, by rw [ht]; exact List.mem_append_left _ he, heq⟩
      · obtain ⟨t, ht, -⟩ := dedupGo_append (acc ++ [s]) rest
        refine ⟨s, ?_, areSuggestionsEqual_refl s⟩
        rw [ht]
        exact List.mem_append_left _ (List.mem_append_right _ (List.mem_singleton.mpr rfl))
    · split
      · exact ih acc hs
      · exact ih (acc ++ [x]) hs

theorem dedupGo_pairwise (acc : List BudgetSuggestion) (l : List BudgetSuggestion)
    (hacc : acc.Pairwise (fun a b => areSuggestionsEqual a b = false)) :
    (dedupGo acc l).Pairwise (fun a b => areSuggestionsEqual a b = false) := by
  induction l generalizing acc with
  | nil => exact hacc
  | cons s rest ih =>
    unfold dedupGo
    split
    · exact ih acc hacc
    · next hdup =>
      refine ih (acc ++ [s]) ?_
      rw [List.pairwise_append]
      refine ⟨hacc, List.pairwise_singleton _ _, ?_⟩
      intro a ha b hb
      rw [List.mem_singleton] at hb
      subst hb
      have := List.any_eq_false.mp (Bool.not_eq_true _ |>.mp hdup) a ha
      simpa using this

theorem deduplicateSuggestions_pairwise (l : List BudgetSuggestion) :
    (deduplicateSuggestions l).Pairwise (fun a b => areSuggestionsEqual a b = false) :=
  dedupGo_pairwise [] l List.Pairwise.nil

theorem deduplicateSuggestions_exists (l : List BudgetSuggestion)
    (s : BudgetSuggestion) (hs : s ∈ l) :
    ∃ t ∈ deduplicateSuggestions l, areSuggestionsEqual t s = true :=
  dedupGo_exists [] l s hs

theorem sortedIds_perm (s : BudgetSuggestion) :
    (sortedIds s).Perm (s.items.map (fun it => it.id)) :=
  List.perm_insertionSort _ _

theorem sortedIds_pairwise (s : BudgetSuggestion) :
    (sortedIds s).Pairwise (fun a b : String => a ≤ b) := by
  have h := List.sorted_insertionSort (fun a b : String => a ≤ b)
    (s.items.map (fun it => it.id))
  exact h

theorem areSuggestionsEqual_iff (a b : BudgetSuggestion) :
    areSuggestionsEqual a b = true ↔
      (a.items.map (fun it => it.id)).Perm (b.items.map (fun it => it.id)) := by
  unfold areSuggestionsEqual
  simp only [Bool.and_eq_true, beq_iff_eq]
  constructor
  · rintro ⟨-, hids⟩
    exact (sortedIds_perm a).symm.trans (hids ▸ sortedIds_perm b)
  · intro hperm
    have hlen : a.items.length = b.items.length := by
      have := hperm.length_eq
      simpa using this
    refine ⟨hlen, ?_⟩
    have hpermS : (sortedIds a).Perm (sortedIds b) :=
      (sortedIds_perm a).trans (hperm.trans (sortedIds_perm b).symm)
    exact List.eq_of_perm_of_sorted hpermS (sortedIds_pairwise a) (sortedIds_pairwise b)

theorem areSuggestionsEqual_iff_toFinset (a b : BudgetSuggestion)
    (ha : (a.items.map (fun it => it.id)).Nodup)
    (hb : (b.items.map (fun it => it.id)).Nodup) :
    areSuggestionsEqual a b = true ↔
      (a.items.map (fun it => it.id)).toFinset = (b.items.map (fun it => it.id)).toFinset := by
  rw [areSuggestionsEqual_iff]
  exact ⟨fun h => List.toFinset_eq_of_perm _ _ h,
    fun h => List.perm_of_nodup_nodup_toFinset_eq ha hb h⟩

theorem sortByPriority_perm (items : List WishlistItem) :
    (sortByPriority items).Perm items :=
  List.perm_insertionSort _ _

theorem sortByPriority_sorted (items : List WishlistItem) :
    (sortByPriority items).Pairwise (fun a b => b.priority ≤ a.priority) :=
  List.sorted_insertionSort prioRel items

theorem sortByPriority_filter (items : List WishlistItem) (k : ℤ) :
    (sortByPriority items).filter (fun it => decide (it.priority = k)) =
      items.filter (fun it => decide (it.priority = k)) := by
  have hmemk : ∀ it ∈ items.filter (fun it => decide (it.priority = k)),
      it.priority = k :=
    fun it hit => of_decide_eq_true (List.mem_filter.mp hit).2
  have hpw : (items.filter (fun it => decide (it.priority = k))).Pairwise prioRel := by
    refine List.pairwise_of_forall_mem_list ?_
    intro a ha b hb
    unfold prioRel
    rw [hmemk a ha, hmemk b hb]
  have hsub : List.Sublist (items.filter (fun it => decide (it.priority = k)))
      (sortByPriority items) :=
    List.sublist_insertionSort hpw (List.filter_sublist items)
  have h2 : List.Sublist (items.filter (fun it => decide (it.priority = k)))
      ((sortByPriority items).filter (fun it => decide (it.priority = k))) := by
    have h3 := hsub.filter (fun it => decide (it.priority = k))
    rwa [List.filter_eq_self.mpr (fun a ha => (List.mem_filter.mp ha).2)] at h3
  have hperm : ((sortByPriority items).filter (fun it => decide (it.priority = k))).Perm
      (items.filter (fun it => decide (it.priority = k))) :=
    (sortByPriority_perm items).filter _
  exact (h2.eq_of_length hperm.length_eq.symm).symm

theorem sortByPriority_head_max {items : List WishlistItem}
    {hd : WishlistItem} {tl : List WishlistItem}
    (h : sortByPriority items = hd :: tl) :
    ∀ it ∈ items, it.priority ≤ hd.priority := by
  intro it hit
  have hmem : it ∈ sortByPriority items := ((sortByPriority_perm items).mem_iff).mpr hit
  rw [h] at hmem
  rcases List.mem_cons.mp hmem with rfl | hmem
  · exact le_refl _
  · have := sortByPriority_sorted items
    rw [h] at this
    exact (List.pairwise_cons.mp this).1 it hmem

theorem sortByPrice_perm (items : List WishlistItem) :
    (sortByPrice items).Perm items :=
  List.perm_insertionSort _ _

theorem sortByValue_perm (items : List WishlistItem) :
    (sortByValue items).Perm items :=
  List.perm_insertionSort _ _

theorem suggestPurchases_of_avail_nil {items : List WishlistItem} {b : ℚ}
    {c : String} (h : getAvailableItems items b c = []) :
    suggestPurchases items b c = [] := by
  unfold suggestPurchases
  rw [h]
  rfl

theorem suggestPurchases_of_avail_ne_nil {items : List WishlistItem} {b : ℚ}
    {c : String} (h : getAvailableItems items b c ≠ []) :
    suggestPurchases items b c =
      deduplicateSuggestions
        (([greedyByPriority (getAvailableItems items b c) b,
            greedyByCheapest (getAvailableItems items b c) b,
            greedyByValue (getAvailableItems items b c) b]).filter
          (fun s => decide (0 < s.items.length))) := by
  unfold suggestPurchases
  rw [if_neg]
  simp only [beq_iff_eq, List.length_eq_zero]
  exact h

theorem mem_suggestPurchases {items : List WishlistItem} {b : ℚ} {c : String}
    {s : BudgetSuggestion} (h : s ∈ suggestPurchases items b c) :
    s ∈ [greedyByPriority (getAvailableItems items b c) b,
      greedyByCheapest (getAvailableItems items b c) b,
      greedyByValue (getAvailableItems items b c) b] := by
  by_cases hav : getAvailableItems items b c = []
  · rw [suggestPurchases_of_avail_nil hav] at h
    cases h
  · rw [suggestPurchases_of_avail_ne_nil hav] at h
    have h1 := (deduplicateSuggestions_sublist _).subset h
    exact (List.filter_sublist _).subset h1

theorem strategy_items_mem_avail {items : List WishlistItem} {b : ℚ} {c : String}
    {s : BudgetSuggestion}
    (hs : s ∈ [greedyByPriority (getAvailableItems items b c) b,
      greedyByCheapest (getAvailableItems items b c) b,
      greedyByValue (getAvailableItems items b c) b])
    {it : WishlistItem} (hit : it ∈ s.items) :
    it ∈ getAvailableItems items b c := by
  simp only [List.mem_cons, List.not_mem_nil, or_false] at hs
  rcases hs with rfl | rfl | rfl
  · have h1 := (greedyGo_sublist (sortByPriority (getAvailableItems items b c)) (.fin b)).subset hit
    exact (sortByPriority_perm _).subset h1
  · have h1 := (greedyGo_sublist (sortByPrice (getAvailableItems items b c)) (.fin b)).subset hit
    exact (sortByPrice_perm _).subset h1
  · have h1 := (greedyGo_sublist (sortByValue (getAvailableItems items b c)) (.fin b)).subset hit
    exact (sortByValue_perm _).subset h1

theorem mem_suggest_sound {items : List WishlistItem} {b : ℚ} {c : String}
    {s : BudgetSuggestion} (hsug : s ∈ suggestPurchases items b c)
    {it : WishlistItem} (hit : it ∈ s.items) :
    it ∈ getAvailableItems items b c :=
  strategy_items_mem_avail (mem_suggestPurchases hsug) hit

theorem buildSuggestion_items_ne_nil {name : String} {sorted : List WishlistItem}
    {avail : List WishlistItem} {b : ℚ}
    (hperm : sorted.Perm avail) (hne : avail ≠ [])
    (H : ∀ it ∈ avail, ∃ q : ℚ, priceOf it = .fin q ∧ q ≤ b) :
    (buildSuggestion name sorted b).items ≠ [] := by
  cases hs : sorted with
  | nil =>
    rw [hs] at hperm
    exact absurd hperm.symm.eq_nil hne
  | cons hd tl =>
    have hmem : hd ∈ avail := by
      refine hperm.subset ?_
      rw [hs]
      exact List.mem_cons_self hd tl
    obtain ⟨q, hq, hqb⟩ := H hd hmem
    have hleb : (priceOf hd).leb (.fin b) = true := by
      rw [hq, JNum.leb_fin_fin]
      exact decide_eq_true hqb
    rw [buildSuggestion_items, greedyGo_cons, if_pos hleb]
    simp

theorem avail_H {items : List WishlistItem} {b : ℚ} {c : String} :
    ∀ it ∈ getAvailableItems items b c, ∃ q : ℚ, priceOf it = .fin q ∧ q ≤ b := by
  intro it hit
  obtain ⟨q, hq, -, hqb⟩ := avail_price_fin hit
  exact ⟨q, by simp [priceOf, hq], hqb⟩

theorem strategies_nonempty {items : List WishlistItem} {b : ℚ} {c : String}
    (hne : getAvailableItems items b c ≠ []) :
    (([greedyByPriority (getAvailableItems items b c) b,
        greedyByCheapest (getAvailableItems items b c) b,
        greedyByValue (getAvailableItems items b c) b]).filter
      (fun s => decide (0 < s.items.length))) =
    [greedyByPriority (getAvailableItems items b c) b,
      greedyByCheapest (getAvailableItems items b c) b,
      greedyByValue (getAvailableItems items b c) b] := by
  have h1 : (greedyByPriority (getAvailableItems items b c) b).items ≠ [] :=
    buildSuggestion_items_ne_nil (sortByPriority_perm (getAvailableItems items b c)) hne avail_H
  have h2 : (greedyByCheapest (getAvailableItems items b c) b).items ≠ [] :=
    buildSuggestion_items_ne_nil (sortByPrice_perm (getAvailableItems items b c)) hne avail_H
  have h3 : (greedyByValue (getAvailableItems items b c) b).items ≠ [] :=
    buildSuggestion_items_ne_nil (sortByValue_perm (getAvailableItems items b c)) hne avail_H
  rw [List.filter_eq_self]
  intro s hs
  simp only [List.mem_cons, List.not_mem_nil, or_false] at hs
  rcases hs with rfl | rfl | rfl
  · exact decide_eq_true (List.length_pos.mpr h1)
  · exact decide_eq_true (List.length_pos.mpr h2)
  · exact decide_eq_true (List.length_pos.mpr h3)

theorem suggestPurchases_head {items : List WishlistItem} {b : ℚ} {c : String}
    (hne : getAvailableItems items b c ≠ []) :
    ∃ t, suggestPurchases items b c =
      greedyByPriority (getAvailableItems items b c) b :: t := by
  rw [suggestPurchases_of_avail_ne_nil hne, strategies_nonempty hne]
  obtain ⟨t, ht, -⟩ := deduplicateSuggestions_cons _ _
  exact ⟨t, ht⟩

theorem getAvailableItems_removal {item : WishlistItem} {c : String}
    (h : getEffectivePrice item c = none) (pre post : List WishlistItem) (b : ℚ) :
    getAvailableItems (pre ++ item :: post) b c =
      getAvailableItems (pre ++ post) b c := by
  unfold getAvailableItems
  rw [List.filterMap_append, List.filterMap_append, List.filterMap_cons]
  simp [h]

theorem suggestPurchases_congr {items1 items2 : List WishlistItem} {b : ℚ}
    {c : String}
    (h : getAvailableItems items1 b c = getAvailableItems items2 b c) :
    suggestPurchases items1 b c = suggestPurchases items2 b c := by
  unfold suggestPurchases
  rw [h]

theorem avail_nil_of_all_purchased {items : List WishlistItem} {b : ℚ} {c : String}
    (h : ∀ it ∈ items, it.isPurchased = true) :
    getAvailableItems items b c = [] := by
  rw [List.eq_nil_iff_forall_not_mem]
  intro j hj
  obtain ⟨orig, ho, p, -, -, hpur, -⟩ := mem_getAvailableItems.mp hj
  rw [h orig ho] at hpur
  cases hpur

theorem avail_nil_of_all_over {items : List WishlistItem} {b : ℚ} {c : String}
    (h : ∀ it ∈ items, ∀ p, getEffectivePrice it c = some p →
      p.gtb (.fin b) = true) :
    getAvailableItems items b c = [] := by
  rw [List.eq_nil_iff_forall_not_mem]
  intro j hj
  obtain ⟨orig, ho, p, hp, -, -, hbud⟩ := mem_getAvailableItems.mp hj
  rw [h orig ho p hp] at hbud
  cases hbud

theorem avail_nil_of_all_none {items : List WishlistItem} {b : ℚ} {c : String}
    (h : ∀ it ∈ items, getEffectivePrice it c = none) :
    getAvailableItems items b c = [] := by
  rw [List.eq_nil_iff_forall_not_mem]
  intro j hj
  obtain ⟨orig, ho, p, hp, -, -, -⟩ := mem_getAvailableItems.mp hj
  rw [h orig ho] at hp
  cases hp

theorem greedyByPriority_first {items : List WishlistItem} {b : ℚ}
    (hne : items ≠ [])
    (H : ∀ it ∈ items, ∃ q : ℚ, priceOf it = .fin q ∧ q ≤ b) :
    ∃ hd tl, (greedyByPriority items b).items = hd :: tl ∧ hd ∈ items ∧
      ∀ it ∈ items, it.priority ≤ hd.priority := by
  cases hsort : sortByPriority items with
  | nil =>
    have := sortByPriority_perm items
    rw [hsort] at this
    exact absurd this.symm.eq_nil hne
  | cons hd tl =>
    have hmem : hd ∈ items := by
      have := sortByPriority_perm items
      rw [hsort] at this
      exact this.subset (List.mem_cons_self hd tl)
    obtain ⟨q, hq, hqb⟩ := H hd hmem
    have hleb : (priceOf hd).leb (.fin b) = true := by
      rw [hq, JNum.leb_fin_fin]
      exact decide_eq_true hqb
    refine ⟨hd, (greedyGo tl ((JNum.fin b).sub (priceOf hd))).1, ?_, hmem,
      sortByPriority_head_max hsort⟩
    unfold greedyByPriority
    rw [buildSuggestion_items, hsort, greedyGo_cons, if_pos hleb]

/-- Concrete item refuting the finiteness part of the price-resolution claim:
`priceInBaseCurrency = Infinity`, same currency as base, `currentPrice = 50`. -/
def c1Item : WishlistItem :=
  { id := "a", priority := 3, isPurchased := false, currentPrice := .fin 50,
    currency := "USD", priceInBaseCurrency := some .inf }

/-- C1 counterexample: the source does not test finiteness, so an item with
`priceInBaseCurrency = Infinity` takes the first branch (the spec-worded rule
would fall back to `currentPrice = 50`), and the item is then excluded from
every suggestion for budget 100 although the claim would include it at
effective price 50. -/
theorem c1_counterexample :
    getEffectivePrice c1Item "USD" = some JNum.inf ∧
      specEffectivePrice c1Item "USD" = some (JNum.fin 50) ∧
      suggestPurchases [c1Item] 100 "USD" = [] := by
  refine ⟨rfl, rfl, ?_⟩
  decide

/-- C1 amended: the effective base price is `priceInBaseCurrency` whenever
that field is a non-`NaN` number `> 0` (finiteness is NOT checked, so
`Infinity` is also used); otherwise `currentPrice` when the item's currency
equals the base currency and `currentPrice > 0`; otherwise the item has no
effective price, and removing such an item from the input leaves the output
of `suggestPurchases` unchanged (it is excluded from every suggestion). -/
theorem c1_price_resolution (item : WishlistItem) (base : String) :
    (∀ v, item.priceInBaseCurrency = some v → v.isNaN = false →
      v.gtb (.fin 0) = true → getEffectivePrice item base = some v) ∧
    (pibcValid item = false → item.currency = base →
      item.currentPrice.gtb (.fin 0) = true →
      getEffectivePrice item base = some item.currentPrice) ∧
    (pibcValid item = false →
      (item.currency ≠ base ∨ item.currentPrice.gtb (.fin 0) = false) →
      getEffectivePrice item base = none) ∧
    (getEffectivePrice item base = none → ∀ pre post b,
      suggestPurchases (pre ++ item :: post) b base =
        suggestPurchases (pre ++ post) b base) := by
  refine ⟨?_, ?_, ?_, ?_⟩
  · intro v hv hnan hpos
    have hval : pibcValid item = true := by
      unfold pibcValid
      rw [hv]
      simp [hnan, hpos]
    unfold getEffectivePrice
    rw [if_pos hval, hv]
  · intro hval hcur hpos
    unfold getEffectivePrice
    rw [if_neg (by simp [hval]), if_pos]
    simp [hcur, hpos]
  · intro hval hor
    unfold getEffectivePrice
    rw [if_neg (by simp [hval]), if_neg]
    rcases hor with hne | hpos
    · simp [hne]
    · simp [hpos]
  · intro hnone pre post b
    exact suggestPurchases_congr (getAvailableItems_removal hnone pre post b)

/-- Item whose `priceInBaseCurrency` is a valid finite positive number. -/
def c1wA : WishlistItem :=
  { id := "a1", priority := 1, isPurchased := false, currentPrice := .fin 1,
    currency := "USD", priceInBaseCurrency := some (.fin 50) }

/-- Item taking the same-currency fallback. -/
def c1wB : WishlistItem :=
  { id := "b1", priority := 1, isPurchased := false, currentPrice := .fin 60,
    currency := "USD", priceInBaseCurrency := none }

/-- Item with no resolvable price (currency mismatch). -/
def c1wC : WishlistItem :=
  { id := "c1", priority := 1, isPurchased := false, currentPrice := .fin 70,
    currency := "USD", priceInBaseCurrency := none }

theorem c1_price_resolution_witness :
    getEffectivePrice c1wA "USD" = some (.fin 50) ∧
      getEffectivePrice c1wB "USD" = some (.fin 60) ∧
      getEffectivePrice c1wC "EUR" = none ∧
      suggestPurchases ([] ++ c1wC :: []) 100 "EUR" =
        suggestPurchases ([] ++ []) 100 "EUR" := by
  refine ⟨?_, ?_, ?_, ?_⟩
  · exact (c1_price_resolution c1wA "USD").1 (.fin 50) rfl rfl (by decide)
  · exact (c1_price_resolution c1wB "USD").2.1 (by decide) rfl (by decide)
  · exact (c1_price_resolution c1wC "EUR").2.2.1 (by decide) (Or.inl (by decide))
  · exact (c1_price_resolution c1wC "EUR").2.2.2
      ((c1_price_resolution c1wC "EUR").2.2.1 (by decide) (Or.inl (by decide)))
      [] [] 100

/-- C2: `greedyByPriority` walks the stable priority-descending sort of its
input greedily.  The sort is a permutation of the input, is sorted by
priority descending, and is stable (for every priority value, the items of
that priority appear in input order); the selection is the greedy walk of
that sort; and when every item fits the budget the first selected item is
one of maximal priority — in particular a unique highest-priority item is
always selected first, whatever cheaper lower-priority combinations exist. -/
theorem c2_greedy_by_priority (items : List WishlistItem) (b : ℚ)
    (hfit : ∀ it ∈ items, ∃ q : ℚ, priceOf it = .fin q ∧ q ≤ b)
    (hne : items ≠ []) :
    (sortByPriority items).Perm items ∧
      (sortByPriority items).Pairwise (fun x y => y.priority ≤ x.priority) ∧
      (∀ k : ℤ, (sortByPriority items).filter (fun it => decide (it.priority = k)) =
        items.filter (fun it => decide (it.priority = k))) ∧
      (greedyByPriority items b).items = (greedyGo (sortByPriority items) (.fin b)).1 ∧
      ∃ hd tl, (greedyByPriority items b).items = hd :: tl ∧ hd ∈ items ∧
        (∀ it ∈ items, it.priority ≤ hd.priority) ∧
        ∀ m ∈ items, (∀ it ∈ items, it ≠ m → it.priority < m.priority) → hd = m := by
  obtain ⟨hd, tl, hsel, hmem, hmax⟩ := greedyByPriority_first hne hfit
  refine ⟨sortByPriority_perm items, sortByPriority_sorted items,
    sortByPriority_filter items, rfl, hd, tl, hsel, hmem, hmax, ?_⟩
  intro m hm huniq
  by_contra hne2
  exact absurd (hmax m hm) (not_le.mpr (huniq hd hmem hne2))

/-- P6 scenario: priority 5 at price 90 of budget 100. -/
def c2A : WishlistItem :=
  { id := "A", priority := 5, isPurchased := false, currentPrice := .fin 1,
    currency := "USD", priceInBaseCurrency := some (.fin 90) }

/-- P6 scenario: priority 4 at price 40. -/
def c2B : WishlistItem :=
  { id := "B", priority := 4, isPurchased := false, currentPrice := .fin 1,
    currency := "USD", priceInBaseCurrency := some (.fin 40) }

/-- P6 scenario: priority 3 at price 40. -/
def c2C : WishlistItem :=
  { id := "C", priority := 3, isPurchased := false, currentPrice := .fin 1,
    currency := "USD", priceInBaseCurrency := some (.fin 40) }

theorem c2_greedy_by_priority_witness :
    ((sortByPriority [c2A, c2B, c2C]).Perm [c2A, c2B, c2C] ∧
      (sortByPriority [c2A, c2B, c2C]).Pairwise (fun x y => y.priority ≤ x.priority) ∧
      (∀ k : ℤ, (sortByPriority [c2A, c2B, c2C]).filter (fun it => decide (it.priority = k)) =
        ([c2A, c2B, c2C]).filter (fun it => decide (it.priority = k))) ∧
      (greedyByPriority [c2A, c2B, c2C] 100).items =
        (greedyGo (sortByPriority [c2A, c2B, c2C]) (.fin 100)).1 ∧
      ∃ hd tl, (greedyByPriority [c2A, c2B, c2C] 100).items = hd :: tl ∧
        hd ∈ [c2A, c2B, c2C] ∧
        (∀ it ∈ [c2A, c2B, c2C], it.priority ≤ hd.priority) ∧
        ∀ m ∈ [c2A, c2B, c2C],
          (∀ it ∈ [c2A, c2B, c2C], it ≠ m → it.priority < m.priority) → hd = m) ∧
    (greedyByPriority [c2A, c2B, c2C] 100).items = [c2A] := by
  have e1 : (JNum.fin 100).sub (priceOf c2A) = .fin 10 := by
    show (JNum.fin 100).sub (.fin 90) = .fin 10
    rw [JNum.sub_fin_fin]
    norm_num
  have hsort : sortByPriority [c2A, c2B, c2C] = [c2A, c2B, c2C] := by decide
  have hitems : (greedyByPriority [c2A, c2B, c2C] 100).items = [c2A] := by
    calc (greedyByPriority [c2A, c2B, c2C] 100).items
        = (greedyGo (sortByPriority [c2A, c2B, c2C]) (.fin 100)).1 := rfl
      _ = (greedyGo [c2A, c2B, c2C] (.fin 100)).1 := by rw [hsort]
      _ = c2A :: (greedyGo [c2B, c2C] ((JNum.fin 100).sub (priceOf c2A))).1 := by
          rw [greedyGo_cons, if_pos (by decide)]
      _ = c2A :: (greedyGo [c2B, c2C] (.fin 10)).1 := by rw [e1]
      _ = [c2A] := by decide
  refine ⟨c2_greedy_by_priority [c2A, c2B, c2C] 100 ?_ (by decide), hitems⟩
  intro it hit
  simp only [List.mem_cons, List.not_mem_nil, or_false] at hit
  rcases hit with rfl | rfl | rfl
  · exact ⟨90, rfl, by norm_num⟩
  · exact ⟨40, rfl, by norm_num⟩
  · exact ⟨40, rfl, by norm_num⟩

/-- C3: two suggestions are equal iff their sorted id lists agree, which for
duplicate-free id lists (the data model declares ids unique) is exactly
equality of the id sets; `deduplicateSuggestions` keeps an order-preserving
sublist in which the first element always survives, every input suggestion
has an equal representative, and no two kept suggestions are equal; and
`suggestPurchases` is an order-preserving sublist of the fixed strategy list
[high-priority, most-items, best-value], hence has at most 3 elements. -/
theorem c3_dedup (a b : BudgetSuggestion) (l : List BudgetSuggestion)
    (items : List WishlistItem) (bud : ℚ) (c : String) :
    (areSuggestionsEqual a b = true ↔
      (a.items.map (fun it => it.id)).Perm (b.items.map (fun it => it.id))) ∧
    ((a.items.map (fun it => it.id)).Nodup → (b.items.map (fun it => it.id)).Nodup →
      (areSuggestionsEqual a b = true ↔
        (a.items.map (fun it => it.id)).toFinset =
          (b.items.map (fun it => it.id)).toFinset)) ∧
    List.Sublist (deduplicateSuggestions l) l ∧
    (∃ t, deduplicateSuggestions (a :: l) = a :: t ∧ List.Sublist t l) ∧
    (∀ s ∈ l, ∃ t ∈ deduplicateSuggestions l, areSuggestionsEqual t s = true) ∧
    (deduplicateSuggestions l).Pairwise (fun x y => areSuggestionsEqual x y = false) ∧
    List.Sublist (suggestPurchases items bud c)
      [greedyByPriority (getAvailableItems items bud c) bud,
        greedyByCheapest (getAvailableItems items bud c) bud,
        greedyByValue (getAvailableItems items bud c) bud] ∧
    (suggestPurchases items bud c).length ≤ 3 := by
  have hsub : List.Sublist (suggestPurchases items bud c)
      [greedyByPriority (getAvailableItems items bud c) bud,
        greedyByCheapest (getAvailableItems items bud c) bud,
        greedyByValue (getAvailableItems items bud c) bud] := by
    by_cases hav : getAvailableItems items bud c = []
    · rw [suggestPurchases_of_avail_nil hav]
      exact List.nil_sublist _
    · rw [suggestPurchases_of_avail_ne_nil hav]
      exact (deduplicateSuggestions_sublist _).trans (List.filter_sublist _)
  refine ⟨areSuggestionsEqual_iff a b, areSuggestionsEqual_iff_toFinset a b,
    deduplicateSuggestions_sublist l, deduplicateSuggestions_cons a l,
    deduplicateSuggestions_exists l, deduplicateSuggestions_pairwise l,
    hsub, ?_⟩
  have := hsub.length_le
  simpa using this

/-- Suggestion from the high-priority strategy over a single item. -/
def c3s1 : BudgetSuggestion :=
  { strategy := "high-priority", items := [c2A], totalCost := .fin 90,
    priorityScore := 5, remaining := .fin 10 }

/-- Suggestion from the most-items strategy selecting the same item set. -/
def c3s2 : BudgetSuggestion :=
  { strategy := "most-items", items := [c2A], totalCost := .fin 90,
    priorityScore := 5, remaining := .fin 10 }

theorem c3_dedup_witness :
    (areSuggestionsEqual c3s1 c3s2 = true ↔
      (c3s1.items.map (fun it => it.id)).toFinset =
        (c3s2.items.map (fun it => it.id)).toFinset) ∧
    (∃ t ∈ deduplicateSuggestions [c3s1, c3s2],
      areSuggestionsEqual t c3s2 = true) :=
  ⟨(c3_dedup c3s1 c3s2 [] [] 100 "USD").2.1 (by decide) (by decide),
    (c3_dedup c3s1 c3s2 [c3s1, c3s2] [] 100 "USD").2.2.2.2.1 c3s2 (by decide)⟩

theorem round2_zero : round2 0 = 0 := by
  unfold round2 jsRound
  norm_num

/-- C4: membership in the eligibility filter is exactly being an unpurchased
copy of an input item with a resolved effective price that does not exceed
the budget; for resolved (hence positive, non-`NaN`) prices the filter test
`!(p > budget)` is exactly `p` finite with value `≤ budget`, so the boundary
is inclusive; and a single item whose effective price equals the budget is
selected by the most-items strategy with `remaining = 0`. -/
theorem c4_eligibility (items : List WishlistItem) (b : ℚ) (c : String)
    (j : WishlistItem) (item : WishlistItem) :
    (j ∈ getAvailableItems items b c ↔
      ∃ orig ∈ items, ∃ p, getEffectivePrice orig c = some p ∧ j = setPrice orig p ∧
        orig.isPurchased = false ∧ p.gtb (.fin b) = false) ∧
    (∀ p : JNum, p.gtb (.fin 0) = true →
      (p.gtb (.fin b) = false ↔ ∃ q : ℚ, p = .fin q ∧ q ≤ b)) ∧
    (getEffectivePrice item c = some (.fin b) → item.isPurchased = false →
      (greedyByCheapest (getAvailableItems [item] b c) b).items =
          [setPrice item (.fin b)] ∧
        (greedyByCheapest (getAvailableItems [item] b c) b).remaining = .fin 0 ∧
        (greedyByCheapest (getAvailableItems [item] b c) b).strategy =
          "most-items") := by
  refine ⟨mem_getAvailableItems, ?_, ?_⟩
  · intro p hpos
    rcases (JNum.gtb_fin_zero p).mp hpos with rfl | ⟨q, rfl, -⟩
    · simp [JNum.gtb_inf_fin]
    · rw [JNum.gtb_fin_fin]
      constructor
      · intro h
        exact ⟨q, rfl, le_of_not_lt (by simpa using h)⟩
      · rintro ⟨q2, heq, hle⟩
        cases heq
        simpa using not_lt.mpr hle
  · intro heff hpur
    have havail : getAvailableItems [item] b c = [setPrice item (.fin b)] := by
      unfold getAvailableItems
      simp [List.filterMap_cons, heff, hpur, JNum.gtb_fin_fin, lt_irrefl]
    have hsort : sortByPrice [setPrice item (.fin b)] = [setPrice item (.fin b)] := rfl
    have hleb : (priceOf (setPrice item (.fin b))).leb (.fin b) = true := by
      rw [priceOf_setPrice, JNum.leb_fin_fin]
      exact decide_eq_true (le_refl b)
    have hgo : greedyGo [setPrice item (.fin b)] (.fin b) =
        ([setPrice item (.fin b)], .fin (b - b)) := by
      rw [greedyGo_cons, if_pos hleb, priceOf_setPrice, JNum.sub_fin_fin]
      rfl
    refine ⟨?_, ?_, rfl⟩
    · show (greedyGo (sortByPrice (getAvailableItems [item] b c)) (.fin b)).1 = _
      rw [havail, hsort, hgo]
    · show (greedyGo (sortByPrice (getAvailableItems [item] b c)) (.fin b)).2.round2J = _
      rw [havail, hsort, hgo]
      show JNum.fin (round2 (b - b)) = .fin 0
      rw [sub_self, round2_zero]

/-- Item priced exactly at the budget (100). -/
def c4Item : WishlistItem :=
  { id := "d", priority := 2, isPurchased := false, currentPrice := .fin 1,
    currency := "USD", priceInBaseCurrency := some (.fin 100) }

theorem c4_eligibility_witness :
    ((greedyByCheapest (getAvailableItems [c4Item] 100 "USD") 100).items =
        [setPrice c4Item (.fin 100)] ∧
      (greedyByCheapest (getAvailableItems [c4Item] 100 "USD") 100).remaining =
        .fin 0 ∧
      (greedyByCheapest (getAvailableItems [c4Item] 100 "USD") 100).strategy =
        "most-items") ∧
    ((JNum.fin 100).gtb (.fin 100) = false ↔
      ∃ q : ℚ, JNum.fin 100 = .fin q ∧ q ≤ 100) :=
  ⟨(c4_eligibility [c4Item] 100 "USD" c4Item c4Item).2.2 (by decide) rfl,
    (c4_eligibility [c4Item] 100 "USD" c4Item c4Item).2.1 (.fin 100) (by decide)⟩

theorem buildSuggestion_totals {name : String} {sorted avail : List WishlistItem}
    {b : ℚ} (hperm : sorted.Perm avail)
    (Hav : ∀ it ∈ avail, (priceOf it).isFinite = true) :
    ∃ tc rem : ℚ, (buildSuggestion name sorted b).totalCost = .fin tc ∧
      (buildSuggestion name sorted b).remaining = .fin rem ∧
      tc = round2 (sumPrices (buildSuggestion name sorted b).items) ∧
      rem = round2 (b - sumPrices (buildSuggestion name sorted b).items) ∧
      |tc + rem - b| ≤ 1 / 100 ∧
      (buildSuggestion name sorted b).priorityScore =
        sumPrio (buildSuggestion name sorted b).items := by
  have H : ∀ it ∈ sorted, (priceOf it).isFinite = true :=
    fun it hit => Hav it (hperm.subset hit)
  refine ⟨round2 (sumPrices (buildSuggestion name sorted b).items),
    round2 (b - sumPrices (buildSuggestion name sorted b).items),
    buildSuggestion_totalCost name sorted b H,
    buildSuggestion_remaining name sorted b H, rfl, rfl, ?_,
    buildSuggestion_priorityScore name sorted b⟩
  have h1 := abs_round2_sub (sumPrices (buildSuggestion name sorted b).items)
  have h2 := abs_round2_sub (b - sumPrices (buildSuggestion name sorted b).items)
  rw [abs_le] at h1 h2 ⊢
  constructor <;> [linarith; linarith]

/-- C5: every returned suggestion carries a finite `totalCost` equal to the
sum of its items' effective prices rounded once to two decimals, a finite
`remaining` equal to `budget` minus that exact sum rounded once to two
decimals, `totalCost + remaining` within `0.01` of the budget, and a
`priorityScore` equal to the integer sum of the selected priorities. -/
theorem c5_totals (items : List WishlistItem) (b : ℚ) (c : String)
    (s : BudgetSuggestion) (hs : s ∈ suggestPurchases items b c) :
    ∃ tc rem : ℚ, s.totalCost = .fin tc ∧ s.remaining = .fin rem ∧
      tc = round2 (sumPrices s.items) ∧
      rem = round2 (b - sumPrices s.items) ∧
      |tc + rem - b| ≤ 1 / 100 ∧
      s.priorityScore = sumPrio s.items := by
  have hmem := mem_suggestPurchases hs
  have Hav : ∀ it ∈ getAvailableItems items b c, (priceOf it).isFinite = true :=
    fun it hit => avail_priceOf_fin hit
  simp only [List.mem_cons, List.not_mem_nil, or_false] at hmem
  rcases hmem with rfl | rfl | rfl
  · exact buildSuggestion_totals (sortByPriority_perm _) Hav
  · exact buildSuggestion_totals (sortByPrice_perm _) Hav
  · exact buildSuggestion_totals (sortByValue_perm _) Hav

/-- Item used by the C5 witness: effective price 50 of budget 100. -/
def c5Item : WishlistItem :=
  { id := "e", priority := 4, isPurchased := false, currentPrice := .fin 1,
    currency := "USD", priceInBaseCurrency := some (.fin 50) }

theorem c5_totals_witness :
    ∃ tc rem : ℚ,
      (greedyByPriority (getAvailableItems [c5Item] 100 "USD") 100).totalCost =
          .fin tc ∧
        (greedyByPriority (getAvailableItems [c5Item] 100 "USD") 100).remaining =
          .fin rem ∧
        tc = round2 (sumPrices
          (greedyByPriority (getAvailableItems [c5Item] 100 "USD") 100).items) ∧
        rem = round2 (100 - sumPrices
          (greedyByPriority (getAvailableItems [c5Item] 100 "USD") 100).items) ∧
        |tc + rem - 100| ≤ 1 / 100 ∧
        (greedyByPriority (getAvailableItems [c5Item] 100 "USD") 100).priorityScore =
          sumPrio (greedyByPriority (getAvailableItems [c5Item] 100 "USD") 100).items := by
  have hne : getAvailableItems [c5Item] 100 "USD" ≠ [] := by decide
  obtain ⟨t, ht⟩ := suggestPurchases_head hne
  refine c5_totals [c5Item] 100 "USD" _ ?_
  rw [ht]
  exact List.mem_cons_self _ _

/-- C6: the engine returns the empty list (it cannot fail) whenever the item
list is empty, or every item is purchased, or every resolved effective price
exceeds the budget. -/
theorem c6_empty_cases (items : List WishlistItem) (b : ℚ) (c : String)
    (h : items = [] ∨ (∀ it ∈ items, it.isPurchased = true) ∨
      (∀ it ∈ items, ∀ p, getEffectivePrice it c = some p →
        p.gtb (.fin b) = true)) :
    suggestPurchases items b c = [] := by
  rcases h with rfl | h | h
  · exact suggestPurchases_of_avail_nil rfl
  · exact suggestPurchases_of_avail_nil (avail_nil_of_all_purchased h)
  · exact suggestPurchases_of_avail_nil (avail_nil_of_all_over h)

theorem c6_empty_cases_witness :
    suggestPurchases [] 100 "USD" = [] ∧
      suggestPurchases [{ c5Item with isPurchased := true }] 100 "USD" = [] :=
  ⟨c6_empty_cases [] 100 "USD" (Or.inl rfl),
    c6_empty_cases [{ c5Item with isPurchased := true }] 100 "USD"
      (Or.inr (Or.inl (by intro it hit; rw [List.mem_singleton] at hit; rw [hit])))⟩

/-- C7: the embedding of `suggestPurchases` is a total function (every
JavaScript operation it performs — array map/filter/sort, `<=`, `-`, and
non-null assertion reads — is non-throwing, which totality of the embedding
reflects); items whose price cannot be resolved are silently excluded, in
that every item of every returned suggestion stems from an input item with
a resolved price, and an input consisting only of unpriceable items yields
the empty list rather than an error. -/
theorem c7_no_throw (items : List WishlistItem) (b : ℚ) (c : String) :
    (∀ s ∈ suggestPurchases items b c, ∀ it ∈ s.items,
      ∃ orig ∈ items, getEffectivePrice orig c ≠ none) ∧
    ((∀ it ∈ items, getEffectivePrice it c = none) →
      suggestPurchases items b c = []) := by
  constructor
  · intro s hs it hit
    obtain ⟨orig, ho, p, hp, -, -, -⟩ :=
      mem_getAvailableItems.mp (mem_suggest_sound hs hit)
    exact ⟨orig, ho, by simp [hp]⟩
  · intro h
    exact suggestPurchases_of_avail_nil (avail_nil_of_all_none h)

/-- A malformed item: no converted price, mismatched currency, and a `NaN`
current price. -/
def c7Item : WishlistItem :=
  { id := "m", priority := 3, isPurchased := false, currentPrice := .nan,
    currency := "EUR", priceInBaseCurrency := none }

theorem c7_no_throw_witness :
    suggestPurchases [c7Item] 100 "USD" = [] :=
  (c7_no_throw [c7Item] 100 "USD").2
    (by intro it hit; rw [List.mem_singleton] at hit; rw [hit]; rfl)

/-- C8 counterexample: a request with a valid budget and no currency field is
not rejected — the handler invokes the engine (the request interface has no
currency member and the handler never validates one; the base currency comes
from stored settings). -/
theorem c8_counterexample :
    POST { budget := some (.num (.fin 100)), currency := none } "USD" =
      .invoked (.fin 100) "USD" := by
  decide

/-- C8 amended: the handler rejects a request whose `budget` is absent or
`null`, is not a number, or is `<= 0`, before the engine is invoked, and
otherwise invokes the engine with that budget and the settings' base
currency; the request's currency (if any) is never consulted, so a missing
currency never causes a rejection. -/
theorem c8_validation (body : BudgetRequestBody) (sc : String) :
    (body.budget = none → POST body sc = .rejected "Budget amount is required") ∧
    (body.budget = some .nonNum →
      POST body sc = .rejected "Budget must be a positive number") ∧
    (∀ n, body.budget = some (.num n) → n.leb (.fin 0) = true →
      POST body sc = .rejected "Budget must be a positive number") ∧
    (∀ n, body.budget = some (.num n) → n.leb (.fin 0) = false →
      POST body sc = .invoked n sc) ∧
    (∀ cur, POST { body with currency := cur } sc = POST body sc) := by
  refine ⟨?_, ?_, ?_, ?_, ?_⟩
  · intro h
    unfold POST
    rw [h]
  · intro h
    unfold POST
    rw [h]
  · intro n h hle
    unfold POST
    rw [h]
    simp [hle]
  · intro n h hle
    unfold POST
    rw [h]
    simp [hle]
  · intro cur
    rfl

theorem c8_validation_witness :
    POST { budget := none, currency := some "USD" } "USD" =
        .rejected "Budget amount is required" ∧
      POST { budget := some .nonNum, currency := none } "USD" =
        .rejected "Budget must be a positive number" ∧
      POST { budget := some (.num (.fin 0)), currency := none } "USD" =
        .rejected "Budget must be a positive number" ∧
      POST { budget := some (.num (.fin 100)), currency := none } "EUR" =
        .invoked (.fin 100) "EUR" ∧
      POST { budget := some (.num (.fin 100)), currency := some "JPY" } "USD" =
        POST { budget := some (.num (.fin 100)), currency := none } "USD" :=
  ⟨(c8_validation { budget := none, currency := some "USD" } "USD").1 rfl,
    (c8_validation { budget := some .nonNum, currency := none } "USD").2.1 rfl,
    (c8_validation { budget := some (.num (.fin 0)), currency := none } "USD").2.2.1
      (.fin 0) rfl (by decide),
    (c8_validation { budget := some (.num (.fin 100)), currency := none } "EUR").2.2.2.1
      (.fin 100) rfl (by decide),
    (c8_validation { budget := some (.num (.fin 100)), currency := none } "USD").2.2.2.2
      (some "JPY")⟩

/-- C9: when some eligible item exists (unpurchased, resolved price within
budget), all three strategies select at least one item, the defensive
empty-selection filter removes nothing, and the output is non-empty with the
high-priority suggestion first. -/
theorem c9_nonempty_first (items : List WishlistItem) (b : ℚ) (c : String)
    (h : ∃ it ∈ items, it.isPurchased = false ∧
      ∃ p, getEffectivePrice it c = some p ∧ p.gtb (.fin b) = false) :
    (([greedyByPriority (getAvailableItems items b c) b,
        greedyByCheapest (getAvailableItems items b c) b,
        greedyByValue (getAvailableItems items b c) b]).filter
      (fun s => decide (0 < s.items.length)) =
      [greedyByPriority (getAvailableItems items b c) b,
        greedyByCheapest (getAvailableItems items b c) b,
        greedyByValue (getAvailableItems items b c) b]) ∧
    ∃ t, suggestPurchases items b c =
        greedyByPriority (getAvailableItems items b c) b :: t ∧
      (greedyByPriority (getAvailableItems items b c) b).strategy =
        "high-priority" ∧
      (greedyByPriority (getAvailableItems items b c) b).items ≠ [] := by
  obtain ⟨it, hit, hpur, p, hp, hbud⟩ := h
  have hmem : setPrice it p ∈ getAvailableItems items b c :=
    mem_getAvailableItems.mpr ⟨it, hit, p, hp, rfl, hpur, hbud⟩
  have hne : getAvailableItems items b c ≠ [] := List.ne_nil_of_mem hmem
  obtain ⟨t, ht⟩ := suggestPurchases_head hne
  exact ⟨strategies_nonempty hne, t, ht, rfl,
    buildSuggestion_items_ne_nil (sortByPriority_perm _) hne avail_H⟩

/-- Eligible item for the C9 witness. -/
def c9Item : WishlistItem :=
  { id := "g", priority := 3, isPurchased := false, currentPrice := .fin 1,
    currency := "USD", priceInBaseCurrency := some (.fin 50) }

theorem c9_nonempty_first_witness :
    ∃ t, suggestPurchases [c9Item] 100 "USD" =
        greedyByPriority (getAvailableItems [c9Item] 100 "USD") 100 :: t ∧
      (greedyByPriority (getAvailableItems [c9Item] 100 "USD") 100).strategy =
        "high-priority" ∧
      (greedyByPriority (getAvailableItems [c9Item] 100 "USD") 100).items ≠ [] :=
  (c9_nonempty_first [c9Item] 100 "USD"
    ⟨c9Item, List.mem_singleton.mpr rfl, rfl, .fin 50, by decide, by decide⟩).2

/-- C10: every item of every returned suggestion is the copy of an input
item whose `priceInBaseCurrency` has been overwritten with the resolved
effective price; in particular it always carries a positive finite
`priceInBaseCurrency`, even when the input item's field was `null` and the
price came from the same-currency `currentPrice` fallback. -/
theorem c10_output_copies (items : List WishlistItem) (b : ℚ) (c : String)
    (s : BudgetSuggestion) (hs : s ∈ suggestPurchases items b c)
    (it : WishlistItem) (hit : it ∈ s.items) :
    ∃ orig p, orig ∈ items ∧ getEffectivePrice orig c = some p ∧
      it = setPrice orig p ∧
      ∃ q : ℚ, it.priceInBaseCurrency = some (.fin q) ∧ 0 < q := by
  have hav := mem_suggest_sound hs hit
  obtain ⟨q, hq, hq0, -⟩ := avail_price_fin hav
  obtain ⟨orig, ho, p, hp, heq, -, -⟩ := mem_getAvailableItems.mp hav
  exact ⟨orig, p, ho, hp, heq, q, hq, hq0⟩

/-- Fallback-priced item for the C10 witness: `priceInBaseCurrency = null`,
same currency as base, `currentPrice = 50`. -/
def c10Item : WishlistItem :=
  { id := "f", priority := 2, isPurchased := false, currentPrice := .fin 50,
    currency := "USD", priceInBaseCurrency := none }

theorem c10_output_copies_witness :
    (∃ orig p, orig ∈ [c10Item] ∧ getEffectivePrice orig "USD" = some p ∧
      setPrice c10Item (.fin 50) = setPrice orig p ∧
      ∃ q : ℚ, (setPrice c10Item (.fin 50)).priceInBaseCurrency =
        some (.fin q) ∧ 0 < q) ∧
    (setPrice c10Item (.fin 50)).priceInBaseCurrency = some (.fin 50) := by
  have hne : getAvailableItems [c10Item] 100 "USD" ≠ [] := by decide
  obtain ⟨t, ht⟩ := suggestPurchases_head hne
  refine ⟨c10_output_copies [c10Item] 100 "USD"
    (greedyByPriority (getAvailableItems [c10Item] 100 "USD") 100) ?_
    (setPrice c10Item (.fin 50)) ?_, rfl⟩
  · rw [ht]
    exact List.mem_cons_self _ _
  · decide
